import Mathlib

/-!
# aws-s3-cloudfront-sync: a shallow embedding of `main.go`

The program lists the keys of an S3 bucket below a key prefix and, key by key,
compares the size of the local copy with the `Content-Length` a CloudFront URL
reports, downloading the object when the local copy is missing or has another
size.

The embedding follows `main.go` function by function (`parseBucketArg`,
`syncFile`, `main`).  The world outside the program (the HTTP endpoint, the
listing API, the file system) is explicit: the remote side is a record of
response functions (`Env`), the local side is a file-system value (`FS`) that
the operations transform, and every external call and every printed line is
appended to a trace of `Event`s.

Go strings are modelled as lists of code points (`GoString`); the only
separator the program looks for is the ASCII character `/`, for which byte
positions and code-point positions agree on valid UTF-8.
-/

namespace S3Sync

/-- A Go string, as the sequence of its code points. -/
abbrev GoString := List Char

/-- One byte of a file or of a response body. -/
abbrev Byte := UInt8

/-! ## The `strings` and `fmt` functions used by `main.go` -/

/-- Go `strings.HasPrefix(s, p)`. -/
def hasPrefix (s p : GoString) : Bool :=
  p.isPrefixOf s

/-- Go `strings.TrimPrefix(s, p)`: `s` without the leading `p`, or `s` itself
when `s` does not start with `p`. -/
def trimPrefix (s p : GoString) : GoString :=
  if hasPrefix s p then s.drop p.length else s

/-- The pieces of `s` before and after the first occurrence of `sep`
(Go `strings.Index` followed by the two slices), `none` when `sep` does not
occur. -/
def cut (sep : Char) : GoString → Option (GoString × GoString)
  | [] => none
  | c :: s =>
    if c = sep then some ([], s)
    else
      match cut sep s with
      | none => none
      | some (a, b) => some (c :: a, b)

/-- Go `strings.SplitN(s, sep, n)` for a one-character separator and `n ≥ 0`:
at most `n` pieces, the last one holding the unsplit remainder. -/
def splitN (s : GoString) (sep : Char) : Nat → List GoString
  | 0 => []
  | 1 => [s]
  | n + 2 =>
    match cut sep s with
    | none => [s]
    | some (a, b) => a :: splitN b sep (n + 1)

/-- Go `unicode.IsSpace`: the Latin-1 spaces and the code points with the
Unicode White_Space property. -/
def isSpace (c : Char) : Bool :=
  let n := c.toNat
  (9 ≤ n && n ≤ 13) || n == 32 || n == 0x85 || n == 0xA0 || n == 0x1680 ||
  (0x2000 ≤ n && n ≤ 0x200A) || n == 0x2028 || n == 0x2029 || n == 0x202F ||
  n == 0x205F || n == 0x3000

/-- Go `strings.TrimSpace`: drop leading and trailing white space. -/
def trimSpace (s : GoString) : GoString :=
  ((s.dropWhile isSpace).reverse.dropWhile isSpace).reverse

/-! ## The `path/filepath` functions used by `main.go` (Unix) -/

/-- The `/`-separated elements of a path, empty elements included. -/
def splitSlash : GoString → List GoString
  | [] => [[]]
  | c :: s =>
    match splitSlash s with
    | [] => [[c]]
    | e :: es => if c = '/' then [] :: e :: es else (c :: e) :: es

/-- One step of `filepath.Clean`: `out` is the stack of elements kept so far,
last one first.  An empty element or `.` is dropped; `..` removes the last
kept element when there is one to remove, is dropped at the root, and is
kept otherwise. -/
def cleanStep (rooted : Bool) (out : List GoString) (e : GoString) : List GoString :=
  if e = [] ∨ e = ['.'] then out
  else if e = ['.', '.'] then
    match out with
    | [] => if rooted then [] else [e]
    | top :: below => if top = ['.', '.'] then e :: top :: below else below
  else e :: out

/-- Elements joined with `/`. -/
def joinSlash : List GoString → GoString
  | [] => []
  | [e] => e
  | e :: f :: es => e ++ '/' :: joinSlash (f :: es)

/-- Go `filepath.Clean` on Unix: the shortest path naming the same file by
lexical processing alone. -/
def clean (path : GoString) : GoString :=
  match path with
  | [] => ['.']
  | c :: _ =>
    let rooted := decide (c = '/')
    let out := ((splitSlash path).foldl (cleanStep rooted) []).reverse
    if rooted then '/' :: joinSlash out
    else if out = [] then ['.'] else joinSlash out

/-- Go `filepath.Join`: the elements from the first non-empty one on, joined
with `/` and cleaned; the empty string when every element is empty. -/
def join : List GoString → GoString
  | [] => []
  | e :: es => if e = [] then join es else clean (joinSlash (e :: es))

/-- The part of `path` up to and including its last `/` (empty when there is
none). -/
def upToLastSlash (path : GoString) : GoString :=
  (path.reverse.dropWhile (fun c => c ≠ '/')).reverse

/-- Go `filepath.Dir` on Unix: all but the last element of the path,
cleaned. -/
def dir (path : GoString) : GoString :=
  clean (upToLastSlash path)

/-! ## `parseBucketArg` -/

/-- `parseBucketArg` of `main.go`: split the bucket argument at its first `/`
into bucket name and key prefix. -/
def parseBucketArg (bucketArg : GoString) : GoString × GoString :=
  let parts := splitN bucketArg '/' 2
  let bucketName := parts.getD 0 []
  let pfx := if parts.length > 1 then parts.getD 1 [] else []
  (bucketName, pfx)

/-! ## The local file system -/

/-- What a path names: a regular file with its content, or a directory. -/
inductive Node where
  | file (content : List Byte)
  | dir
  deriving DecidableEq

/-- The local file system: the node, if any, at each location.  A location
is named by the cleaned path that leads to it from the working directory (or
from the root); there are no symbolic links. -/
abbrev FS := GoString → Option Node

/-- The file system with nothing in it but the directories that always
exist. -/
def FS.empty : FS := fun _ => none

/-- Locations that always are a directory: the working directory, the
root, and the chains of `..` above the working directory. -/
def isRoot (p : GoString) : Bool :=
  p == ['.'] || p == ['/'] || (splitSlash p).all (fun e => e == ['.', '.'])

/-- The node at a location. -/
def FS.node (fs : FS) (p : GoString) : Option Node :=
  if isRoot p then some Node.dir else fs p

/-- The file system with the node at location `p` replaced by `n`. -/
def FS.set (fs : FS) (p : GoString) (n : Node) : FS :=
  fun q => if q = p then some n else fs q

/-- The name of the location reached by the elements `out` (last one first)
from the root or from the working directory; the last step of
`filepath.Clean`. -/
def render (rooted : Bool) (out : List GoString) : GoString :=
  if rooted then '/' :: joinSlash out.reverse
  else if out = [] then ['.'] else joinSlash out.reverse

/-- The non-empty elements of a path: a run of separators counts as one. -/
def elements (path : GoString) : List GoString :=
  (splitSlash path).filter (fun e => e ≠ [])

/-- Path resolution by the operating system, element by element from the
location `out`: an element is looked up in the current location, which must
be a directory; `.` stays, `..` goes to the parent, a name goes to the
entry of that name, which need not exist. -/
def walk (fs : FS) (rooted : Bool) : List GoString → List GoString → Option (List GoString)
  | out, [] => some out
  | out, e :: es =>
    if fs.node (render rooted out) = some Node.dir then
      walk fs rooted (cleanStep rooted out e) es
    else none

/-- The location a path leads to, trailing separators ignored (the
resolution `mkdir` applies); `none` for the empty path and when an element is
looked up in something that is not a directory. -/
def locate (fs : FS) (path : GoString) : Option GoString :=
  match path with
  | [] => none
  | c :: _ =>
    match walk fs (decide (c = '/')) [] (elements path) with
    | none => none
    | some out => some (render (decide (c = '/')) out)

/-- The location a path leads to as `stat` and `open` resolve it: a path
that ends with a separator must lead to a directory. -/
def resolve (fs : FS) (path : GoString) : Option GoString :=
  match locate fs path with
  | none => none
  | some loc =>
    if path.getLast? = some '/' then
      if fs.node loc = some Node.dir then some loc else none
    else some loc

/-- The node a path names. -/
def FS.lookup (fs : FS) (path : GoString) : Option Node :=
  match resolve fs path with
  | none => none
  | some loc => fs.node loc

/-- The content written through a file opened at `path`. -/
def FS.write (fs : FS) (path : GoString) (content : List Byte) : FS :=
  match resolve fs path with
  | none => fs
  | some loc => fs.set loc (Node.file content)

/-- The arguments of the nested calls that Go's `os.MkdirAll(path)` makes to
itself, outermost directory first: every prefix of `path` that ends with a
separator and is followed by the first character of an element, then `path`
itself.  `acc` is the part of the path already read. -/
def mkdirChain : GoString → GoString → List GoString
  | acc, [] => [acc]
  | acc, c :: rest =>
    if c ≠ '/' ∧ acc.getLast? = some '/' then acc :: mkdirChain (acc ++ [c]) rest
    else mkdirChain (acc ++ [c]) rest

/-- One level of `os.MkdirAll`: a path that leads to a directory is left
alone, a regular file in its place is an error, and a missing directory is
made with `mkdir`, which fails when the path cannot be resolved or the
operating system refuses (`denied`). -/
def ensureDir (denied : GoString → Bool) (fs : FS) (path : GoString) : Option FS :=
  match locate fs path with
  | none => none
  | some loc =>
    match fs.node loc with
    | some Node.dir => some fs
    | some (Node.file _) => none
    | none => if denied path then none else some (fs.set loc Node.dir)

/-- Make each listed directory in turn, stopping at the first error. -/
def ensureAll (denied : GoString → Bool) : FS → List GoString → Option FS
  | fs, [] => some fs
  | fs, p :: rest =>
    match ensureDir denied fs p with
    | none => none
    | some fs1 => ensureAll denied fs1 rest

/-! ## The environment, the trace and the state -/

/-- The response to a GET: the declared `Content-Length` (`-1` when the
server declares none), the bytes the body delivers, and whether the body
ends in a read error instead of a clean end of stream. -/
structure GetResp where
  contentLength : Int
  body : List Byte
  readErr : Bool
  deriving DecidableEq

/-- Everything outside the program that it consults.  `none` stands for the
Go call returning a non-nil error. -/
structure Env where
  /-- `config.LoadDefaultConfig` succeeds. -/
  loadConfig : Bool
  /-- The pages the listing paginator yields for a bucket and a prefix, each
  either a failed fetch or the keys of `page.Contents`. -/
  listPages : GoString → GoString → List (Option (List GoString))
  /-- `http.Head(url)`: the response's `ContentLength`. -/
  head : GoString → Option Int
  /-- `http.Get(url)`. -/
  get : GoString → Option GetResp
  /-- The size `os.Stat` reports for a directory. -/
  dirSize : Int
  /-- The operating system refuses to make this directory. -/
  mkdirDenied : GoString → Bool
  /-- The operating system refuses to create this file. -/
  createDenied : GoString → Bool
  /-- The number of bytes that can be written to this file before a write
  error, `none` for no limit. -/
  writeLimit : GoString → Option Nat

/-- The three flag variables of `main.go` after `flag.Parse`. -/
structure Config where
  bucketArg : GoString
  cloudFrontDomain : GoString
  localSyncDir : GoString

/-- The lines the program prints, one constructor per `Printf`/`Println`
call site (the error value of `%v` is not kept). -/
inductive Msg where
  | usageError
  | rootDirFailed
  | pageFailed
  | processing (key : GoString)
  | mkdirFailed (localFilePath : GoString)
  | headFailed
  | skipping (localFilePath : GoString)
  | downloading (cloudFrontURL : GoString)
  | getFailed
  | createFailed
  | writeFailed
  deriving DecidableEq

/-- The calls the program makes to the outside, in the order it makes
them. -/
inductive Event where
  | print (m : Msg)
  | usage
  | loadConfig
  | mkdirAll (path : GoString)
  | nextPage (bucketName pfx : GoString)
  | stat (path : GoString)
  | head (url : GoString)
  | get (url : GoString)
  | barStart (total : Int)
  | create (path : GoString)
  | copy (path : GoString) (written : List Byte)
  | barFinish
  deriving DecidableEq

/-- The state the program runs in: the local file system and the trace of
calls made so far, oldest first. -/
structure World where
  fs : FS
  trace : List Event

/-- Append one call to the trace. -/
def World.emit (w : World) (e : Event) : World :=
  { w with trace := w.trace ++ [e] }

/-! ## The `os`, `net/http` and `io` calls -/

/-- Go `os.MkdirAll(path, 0755)`: make `path` and every missing parent,
walking the path as it is written.  The recursion of the Go function on the
parent prefix is unrolled into the chain of its arguments; a prefix that
already leads to a directory costs nothing, as in the fast path of the Go
function. -/
def mkdirAll (env : Env) (fs : FS) (path : GoString) : Option FS :=
  ensureAll env.mkdirDenied fs (mkdirChain [] path)

/-- Go `os.Stat(path)` followed by `info.Size()`: `none` when nothing is at
`path`.  Sizes and content lengths are `int64` in Go; they are integers here,
a file's length being far below `2^63`. -/
def stat (env : Env) (fs : FS) (path : GoString) : Option Int :=
  match fs.lookup path with
  | some (Node.file content) => some (content.length : Int)
  | some Node.dir => some env.dirSize
  | none => none

/-- Go `os.Create(path)`: create the file or truncate it to length 0.  It
fails on a directory, when the path cannot be resolved (a parent is missing
or is not a directory), and when the operating system refuses. -/
def create (env : Env) (fs : FS) (path : GoString) : Option FS :=
  if env.createDenied path then none
  else
    match resolve fs path with
    | none => none
    | some loc =>
      match fs.node loc with
      | some Node.dir => none
      | _ => some (fs.set loc (Node.file []))

/-- Go `io.Copy(out, body)`: the bytes that reach the file and whether the
copy ended without error.  A write error cuts the copy short at the write
limit; a read error ends it after the bytes delivered. -/
def copy (limit : Option Nat) (resp : GetResp) : List Byte × Bool :=
  match limit with
  | none => (resp.body, !resp.readErr)
  | some l =>
    if resp.body.length ≤ l then (resp.body, !resp.readErr)
    else (resp.body.take l, false)

/-! ## `syncFile` and `main` -/

/-- Line 91 of `main.go`: the local path of a key. -/
def localFilePath (cfg : Config) (pfx key : GoString) : GoString :=
  join [cfg.localSyncDir, trimPrefix key pfx]

/-- Line 92 of `main.go`: the CDN URL of a key
(`fmt.Sprintf("%s/%s", cloudFrontDomain, ...)`). -/
def cloudFrontURL (cfg : Config) (pfx key : GoString) : GoString :=
  cfg.cloudFrontDomain ++ '/' :: trimPrefix key (pfx ++ ['/'])

/-- Lines 119-150 of `main.go`: GET the URL and stream the body into the
local file. -/
def download (env : Env) (url path : GoString) (w : World) : World :=
  let w := (w.emit (Event.print (Msg.downloading url))).emit (Event.get url)
  match env.get url with
  | none => w.emit (Event.print Msg.getFailed)
  | some resp =>
    let w := (w.emit (Event.barStart resp.contentLength)).emit (Event.create path)
    match create env w.fs path with
    | none => w.emit (Event.print Msg.createFailed)
    | some fs2 =>
      let out := copy (env.writeLimit path) resp
      let w : World :=
        { fs := fs2.write path out.1
          trace := w.trace ++ [Event.copy path out.1] }
      if out.2 then w.emit Event.barFinish
      else w.emit (Event.print Msg.writeFailed)

/-- `syncFile` of `main.go`. -/
def syncFile (cfg : Config) (env : Env) (bucketName pfx key : GoString)
    (w : World) : World :=
  let _ := bucketName
  let path := localFilePath cfg pfx key
  let url := cloudFrontURL cfg pfx key
  let dirPath := dir path
  let w := w.emit (Event.mkdirAll dirPath)
  match mkdirAll env w.fs dirPath with
  | none => w.emit (Event.print (Msg.mkdirFailed path))
  | some fs1 =>
    let w : World := { fs := fs1, trace := w.trace ++ [Event.stat path] }
    match stat env w.fs path with
    | some size =>
      let w := w.emit (Event.head url)
      match env.head url with
      | none => w.emit (Event.print Msg.headFailed)
      | some remoteFileSize =>
        if size = remoteFileSize then w.emit (Event.print (Msg.skipping path))
        else download env url path w
    | none => download env url path w

/-- The inner loop of `main` (lines 74-77): one page of keys. -/
def syncKeys (cfg : Config) (env : Env) (bucketName pfx : GoString) :
    List GoString → World → World
  | [], w => w
  | key :: keys, w =>
    syncKeys cfg env bucketName pfx keys
      (syncFile cfg env bucketName pfx key (w.emit (Event.print (Msg.processing key))))

/-- The outer loop of `main` (lines 67-78): page after page until the
paginator has no more pages or a page fails. -/
def syncPages (cfg : Config) (env : Env) (bucketName pfx : GoString) :
    List (Option (List GoString)) → World → World
  | [], w => w
  | none :: _, w =>
    (w.emit (Event.nextPage bucketName pfx)).emit (Event.print Msg.pageFailed)
  | some keys :: pages, w =>
    syncPages cfg env bucketName pfx pages
      (syncKeys cfg env bucketName pfx keys (w.emit (Event.nextPage bucketName pfx)))

/-- The outcome of a run: the exit status of the process and the final
state. -/
structure Run where
  exit : Nat
  world : World

/-- `main` of `main.go`, started on the file system `fs`.  `os.Exit(1)` is
exit status 1, a panic is exit status 2, returning from `main` is exit
status 0. -/
def main (cfg : Config) (env : Env) (fs : FS) : Run :=
  let parsed := parseBucketArg cfg.bucketArg
  let bucketName := parsed.1
  let pfx := parsed.2
  if trimSpace bucketName = [] ∨ trimSpace cfg.cloudFrontDomain = [] then
    { exit := 1, world := { fs := fs, trace := [Event.print Msg.usageError, Event.usage] } }
  else if env.loadConfig = false then
    { exit := 2, world := { fs := fs, trace := [Event.loadConfig] } }
  else
    let w : World := { fs := fs, trace := [Event.loadConfig, Event.mkdirAll cfg.localSyncDir] }
    match mkdirAll env fs cfg.localSyncDir with
    | none => { exit := 0, world := w.emit (Event.print Msg.rootDirFailed) }
    | some fs1 =>
      { exit := 0
        world := syncPages cfg env bucketName pfx (env.listPages bucketName pfx)
          { w with fs := fs1 } }

/-! ## Concrete scenarios -/

/-- The configuration of the specification's scenario: bucket argument
`data/logs`, the CDN at `https://cdn.example.com`, the default local
directory. -/
def exampleConfig : Config :=
  { bucketArg := "data/logs".toList
    cloudFrontDomain := "https://cdn.example.com".toList
    localSyncDir := "./syncedFiles".toList }

/-- An environment that serves one object: at `url` the HEAD probe answers
`probe` and the GET delivers `body` under the declared length `declared`;
every other request fails.  The listing returns one page holding `keys`, and
the operating system refuses nothing. -/
def exampleEnv (url : GoString) (probe : Option Int) (declared : Int)
    (body : List Byte) (keys : List GoString) : Env :=
  { loadConfig := true
    listPages := fun _ _ => [some keys]
    head := fun u => if u = url then probe else none
    get := fun u => if u = url then some ⟨declared, body, false⟩ else none
    dirSize := 4096
    mkdirDenied := fun _ => false
    createDenied := fun _ => false
    writeLimit := fun _ => none }

/-- A file system holding the directory `syncedFiles` and in it one regular
file `name` (a single element) with the given content. -/
def exampleFS (name : GoString) (content : List Byte) : FS :=
  (FS.empty.set "syncedFiles".toList Node.dir).set
    ("syncedFiles/".toList ++ name) (Node.file content)

/-! ## Reading a run -/

/-- The keys the listing returns: the keys of every page fetched before the
first page that fails. -/
def listedKeys : List (Option (List GoString)) → List GoString
  | [] => []
  | none :: _ => []
  | some keys :: pages => keys ++ listedKeys pages

/-- The keys for which a trace shows the driver's `Processing` line, in
order; the driver prints it right before each call of `syncFile`. -/
def processed : List Event → List GoString
  | [] => []
  | Event.print (Msg.processing key) :: t => key :: processed t
  | _ :: t => processed t

/-- The driver's loop over the keys of one page, read as a fold: for each key
in turn the `Processing` line and then the call of `syncFile`, in the state
the key before it left. -/
def driveKeys (cfg : Config) (env : Env) (bucketName pfx : GoString) (w : World)
    (keys : List GoString) : World :=
  keys.foldl
    (fun w key =>
      syncFile cfg env bucketName pfx key (w.emit (Event.print (Msg.processing key))))
    w

/-- The driver over pages that were fetched: for each page in turn the
fetch and then its keys. -/
def drivePages (cfg : Config) (env : Env) (bucketName pfx : GoString) (w : World)
    (pages : List (List GoString)) : World :=
  pages.foldl
    (fun w keys =>
      driveKeys cfg env bucketName pfx (w.emit (Event.nextPage bucketName pfx)) keys)
    w

/-- The pages fetched before the first page that fails. -/
def fetchedPages : List (Option (List GoString)) → List (List GoString)
  | [] => []
  | none :: _ => []
  | some keys :: pages => keys :: fetchedPages pages

/-- Whether the fetch of some page fails. -/
def listingFails : List (Option (List GoString)) → Bool
  | [] => false
  | none :: _ => true
  | some _ :: pages => listingFails pages

/-- The driver over the pages still to come: the pages that can be fetched,
then, when a fetch fails, that fetch and its error line. -/
def driveListing (cfg : Config) (env : Env) (bucketName pfx : GoString) (w : World)
    (pages : List (Option (List GoString))) : World :=
  if listingFails pages then
    ((drivePages cfg env bucketName pfx w (fetchedPages pages)).emit
      (Event.nextPage bucketName pfx)).emit (Event.print Msg.pageFailed)
  else drivePages cfg env bucketName pfx w (fetchedPages pages)

/-- The state in which the driver reaches a key: the root directory made as
`fsr`, the pages `before` gone through, the page of the key fetched, and the
keys `pre` that precede it in that page gone through. -/
def reached (cfg : Config) (env : Env) (bucketName pfx : GoString) (fsr : FS)
    (before : List (List GoString)) (pre : List GoString) : World :=
  driveKeys cfg env bucketName pfx
    ((drivePages cfg env bucketName pfx
      { fs := fsr, trace := [Event.loadConfig, Event.mkdirAll cfg.localSyncDir] }
      before).emit (Event.nextPage bucketName pfx))
    pre

/-! ## Facts about the string functions -/

theorem cut_eq_none (sep : Char) (s : GoString) (h : sep ∉ s) : cut sep s = none := by
  induction s with
  | nil => rfl
  | cons c s ih =>
    have hc : c ≠ sep := fun e => h (e ▸ List.mem_cons_self _ _)
    have hs : sep ∉ s := fun m => h (List.mem_cons_of_mem _ m)
    simp [cut, hc, ih hs]

theorem cut_append (sep : Char) (b p : GoString) (h : sep ∉ b) :
    cut sep (b ++ sep :: p) = some (b, p) := by
  induction b with
  | nil => simp [cut]
  | cons c b ih =>
    have hc : c ≠ sep := fun e => h (e ▸ List.mem_cons_self _ _)
    have hb : sep ∉ b := fun m => h (List.mem_cons_of_mem _ m)
    simp [cut, hc, ih hb]

theorem hasPrefix_append (p s : GoString) : hasPrefix (p ++ s) p = true := by
  simp [hasPrefix, List.isPrefixOf_iff_prefix]

theorem trimPrefix_append (p s : GoString) : trimPrefix (p ++ s) p = s := by
  simp [trimPrefix, hasPrefix_append]

/-! ## Facts about the file system -/

theorem node_set (fs : FS) (p q : GoString) (n : Node) :
    (fs.set p n).node q =
      if isRoot q then some Node.dir else if q = p then some n else fs q := by
  simp [FS.node, FS.set]

theorem set_keeps (fs : FS) (loc : GoString) (m : Node) (h : fs.node loc = none) :
    ∀ q n, fs.node q = some n → (fs.set loc m).node q = some n := by
  intro q n hq
  rw [node_set]
  by_cases hr : isRoot q = true
  · simp only [FS.node, if_pos hr] at hq
    simp only [if_pos hr]; exact hq
  · have hql : q ≠ loc := by
      intro e; rw [e, h] at hq; cases hq
    simp only [FS.node, if_neg hr] at hq
    simp only [if_neg hr, if_neg hql]; exact hq

theorem set_keeps_dirs (fs : FS) (loc : GoString) (m : Node)
    (h : fs.node loc ≠ some Node.dir) :
    ∀ q, fs.node q = some Node.dir → (fs.set loc m).node q = some Node.dir := by
  intro q hq
  rw [node_set]
  by_cases hr : isRoot q = true
  · simp only [if_pos hr]
  · have hql : q ≠ loc := by
      intro e; rw [e] at hq; exact h hq
    simp only [FS.node, if_neg hr] at hq
    simp only [if_neg hr, if_neg hql]; exact hq

theorem walk_mono (fs fs1 : FS) (rooted : Bool)
    (hd : ∀ q, fs.node q = some Node.dir → fs1.node q = some Node.dir)
    (es : List GoString) :
    ∀ out o, walk fs rooted out es = some o → walk fs1 rooted out es = some o := by
  induction es with
  | nil => intro out o h; exact h
  | cons e es ih =>
    intro out o h
    unfold walk at h ⊢
    by_cases hn : fs.node (render rooted out) = some Node.dir
    · rw [if_pos hn] at h
      rw [if_pos (hd _ hn)]
      exact ih _ _ h
    · rw [if_neg hn] at h; cases h

theorem locate_mono (fs fs1 : FS)
    (hd : ∀ q, fs.node q = some Node.dir → fs1.node q = some Node.dir)
    (path loc : GoString) (h : locate fs path = some loc) :
    locate fs1 path = some loc := by
  cases path with
  | nil => cases h
  | cons c t =>
    unfold locate at h ⊢
    cases hw : walk fs (decide (c = '/')) [] (elements (c :: t)) with
    | none => simp only [hw] at h; cases h
    | some out =>
      simp only [hw] at h
      simp only [walk_mono fs fs1 _ hd _ _ _ hw]
      exact h

theorem resolve_mono (fs fs1 : FS)
    (hd : ∀ q, fs.node q = some Node.dir → fs1.node q = some Node.dir)
    (path loc : GoString) (h : resolve fs path = some loc) :
    resolve fs1 path = some loc := by
  unfold resolve at h ⊢
  cases hl : locate fs path with
  | none => simp only [hl] at h; cases h
  | some l =>
    simp only [hl] at h
    simp only [locate_mono fs fs1 hd _ _ hl]
    by_cases hs : path.getLast? = some '/'
    · simp only [if_pos hs] at h ⊢
      by_cases hn : fs.node l = some Node.dir
      · simp only [if_pos hn] at h
        simp only [if_pos (hd _ hn)]; exact h
      · simp only [if_neg hn] at h; cases h
    · simp only [if_neg hs] at h ⊢; exact h

theorem keeps_dirs_of_keeps (fs fs1 : FS)
    (hk : ∀ q n, fs.node q = some n → fs1.node q = some n) :
    ∀ q, fs.node q = some Node.dir → fs1.node q = some Node.dir :=
  fun q hq => hk q Node.dir hq

theorem lookup_keeps (fs fs1 : FS)
    (hk : ∀ q n, fs.node q = some n → fs1.node q = some n)
    (path : GoString) (n : Node) (h : fs.lookup path = some n) :
    fs1.lookup path = some n := by
  unfold FS.lookup at h ⊢
  cases hr : resolve fs path with
  | none => simp only [hr] at h; cases h
  | some loc =>
    simp only [hr] at h
    simp only [resolve_mono fs fs1 (keeps_dirs_of_keeps fs fs1 hk) _ _ hr]
    exact hk _ _ h

theorem stat_keeps (env : Env) (fs fs1 : FS) (path : GoString) (size : Int)
    (hk : ∀ q n, fs.node q = some n → fs1.node q = some n)
    (h : stat env fs path = some size) : stat env fs1 path = some size := by
  unfold stat at h ⊢
  cases hn : fs.lookup path with
  | none => rw [hn] at h; cases h
  | some n => rw [lookup_keeps fs fs1 hk _ _ hn]; rw [hn] at h; exact h

theorem ensureDir_keeps (denied : GoString → Bool) (fs fs1 : FS) (path : GoString)
    (h : ensureDir denied fs path = some fs1) :
    ∀ q n, fs.node q = some n → fs1.node q = some n := by
  unfold ensureDir at h
  cases hl : locate fs path with
  | none => simp only [hl] at h; cases h
  | some loc =>
    simp only [hl] at h
    cases hn : fs.node loc with
    | none =>
      simp only [hn] at h
      by_cases hd : denied path = true
      · simp [hd] at h
      · simp only [hd, Bool.false_eq_true, if_false, Option.some.injEq] at h
        rw [← h]
        exact set_keeps fs loc Node.dir hn
    | some node =>
      simp only [hn] at h
      cases node with
      | file c => cases h
      | dir =>
        simp only [Option.some.injEq] at h
        rw [← h]; exact fun q n hq => hq

theorem ensureDir_done (denied : GoString → Bool) (fs fs1 : FS) (path : GoString)
    (h : ensureDir denied fs path = some fs1) :
    ∃ loc, locate fs1 path = some loc ∧ fs1.node loc = some Node.dir := by
  have hk := ensureDir_keeps denied fs fs1 path h
  unfold ensureDir at h
  cases hl : locate fs path with
  | none => simp only [hl] at h; cases h
  | some loc =>
    refine ⟨loc, locate_mono fs fs1 (keeps_dirs_of_keeps fs fs1 hk) _ _ hl, ?_⟩
    simp only [hl] at h
    cases hn : fs.node loc with
    | none =>
      simp only [hn] at h
      by_cases hd : denied path = true
      · simp [hd] at h
      · simp only [hd, Bool.false_eq_true, if_false, Option.some.injEq] at h
        have hr : isRoot loc = false := by
          cases hroot : isRoot loc with
          | false => rfl
          | true => simp [FS.node, hroot] at hn
        rw [← h, node_set]
        simp [hr]
    | some node =>
      simp only [hn] at h
      cases node with
      | file c => cases h
      | dir =>
        simp only [Option.some.injEq] at h
        rw [← h]; exact hn

theorem ensureDir_idem (denied : GoString → Bool) (fs : FS) (path loc : GoString)
    (hl : locate fs path = some loc) (hn : fs.node loc = some Node.dir) :
    ensureDir denied fs path = some fs := by
  simp only [ensureDir, hl, hn]

theorem ensureAll_keeps (denied : GoString → Bool) (l : List GoString) :
    ∀ fs fs1 : FS, ensureAll denied fs l = some fs1 →
      ∀ q n, fs.node q = some n → fs1.node q = some n := by
  induction l with
  | nil =>
    intro fs fs1 h q n hq
    simp only [ensureAll, Option.some.injEq] at h
    rw [← h]; exact hq
  | cons p rest ih =>
    intro fs fs1 h q n hq
    unfold ensureAll at h
    cases he : ensureDir denied fs p with
    | none => simp only [he] at h; cases h
    | some fs0 =>
      simp only [he] at h
      exact ih _ _ h q n (ensureDir_keeps denied fs fs0 p he q n hq)

theorem ensureAll_done (denied : GoString → Bool) (l : List GoString) :
    ∀ fs fs1 : FS, ensureAll denied fs l = some fs1 →
      ∀ p ∈ l, ∃ loc, locate fs1 p = some loc ∧ fs1.node loc = some Node.dir := by
  induction l with
  | nil => intro fs fs1 _ p hp; cases hp
  | cons a rest ih =>
    intro fs fs1 h p hp
    unfold ensureAll at h
    cases he : ensureDir denied fs a with
    | none => simp only [he] at h; cases h
    | some fs0 =>
      simp only [he] at h
      rcases List.mem_cons.mp hp with e | hmem
      · obtain ⟨loc, hl, hn⟩ := ensureDir_done denied fs fs0 a he
        have hk := ensureAll_keeps denied rest fs0 fs1 h
        exact ⟨loc, e ▸ locate_mono fs0 fs1 (keeps_dirs_of_keeps fs0 fs1 hk) _ _ hl,
          hk _ _ hn⟩
      · exact ih _ _ h p hmem

theorem ensureAll_idem (denied : GoString → Bool) (l : List GoString) (fs : FS)
    (h : ∀ p ∈ l, ∃ loc, locate fs p = some loc ∧ fs.node loc = some Node.dir) :
    ensureAll denied fs l = some fs := by
  induction l with
  | nil => rfl
  | cons a rest ih =>
    unfold ensureAll
    obtain ⟨loc, hl, hn⟩ := h a (List.mem_cons_self _ _)
    rw [ensureDir_idem denied fs a loc hl hn]
    exact ih (fun p hp => h p (List.mem_cons_of_mem _ hp))

theorem mkdirAll_keeps (env : Env) (fs fs1 : FS) (path : GoString)
    (h : mkdirAll env fs path = some fs1) :
    ∀ q n, fs.node q = some n → fs1.node q = some n :=
  ensureAll_keeps _ _ _ _ h

theorem create_spec (env : Env) (fs fs2 : FS) (path : GoString)
    (h : create env fs path = some fs2) :
    ∃ loc, resolve fs path = some loc ∧ fs.node loc ≠ some Node.dir ∧
      fs2 = fs.set loc (Node.file []) := by
  unfold create at h
  split at h
  · cases h
  · cases hr : resolve fs path with
    | none => simp only [hr] at h; cases h
    | some loc =>
      simp only [hr] at h
      refine ⟨loc, rfl, ?_⟩
      split at h
      · cases h
      · rename_i hnd
        exact ⟨fun e => hnd e, (Option.some.inj h).symm⟩

theorem write_after_create (env : Env) (fs fs2 : FS) (path : GoString)
    (content : List Byte) (h : create env fs path = some fs2) :
    ∃ loc, isRoot loc = false ∧ resolve (fs2.write path content) path = some loc ∧
      fs2.write path content = fs2.set loc (Node.file content) ∧
      ∀ q, fs.node q = some Node.dir →
        (fs2.write path content).node q = some Node.dir := by
  obtain ⟨loc, hres, hnd, hfs2⟩ := create_spec env fs fs2 path h
  have hroot : isRoot loc = false := by
    cases hr : isRoot loc with
    | false => rfl
    | true => exact absurd (by simp [FS.node, hr]) hnd
  have hd1 : ∀ q, fs.node q = some Node.dir → fs2.node q = some Node.dir := by
    rw [hfs2]; exact set_keeps_dirs fs loc _ hnd
  have hres2 : resolve fs2 path = some loc := resolve_mono fs fs2 hd1 _ _ hres
  have hw : fs2.write path content = fs2.set loc (Node.file content) := by
    simp only [FS.write, hres2]
  have hnd2 : fs2.node loc ≠ some Node.dir := by
    rw [hfs2, node_set]; simp [hroot]
  have hd2 : ∀ q, fs2.node q = some Node.dir →
      (fs2.write path content).node q = some Node.dir := by
    rw [hw]; exact set_keeps_dirs fs2 loc _ hnd2
  exact ⟨loc, hroot, resolve_mono fs2 _ hd2 _ _ hres2, hw, fun q hq => hd2 q (hd1 q hq)⟩

theorem stat_after_write (env : Env) (fs fs2 : FS) (path : GoString)
    (content : List Byte) (hcreate : create env fs path = some fs2) :
    (fs2.write path content).lookup path = some (Node.file content) ∧
    stat env (fs2.write path content) path = some (content.length : Int) := by
  obtain ⟨loc, hroot, hres, hw, _⟩ := write_after_create env fs fs2 path content hcreate
  have hl : (fs2.write path content).lookup path = some (Node.file content) := by
    simp only [FS.lookup, hres]
    rw [hw, node_set]
    simp [hroot]
  exact ⟨hl, by simp [stat, hl]⟩

theorem mkdirAll_again (env : Env) (fs fs1 fs2 : FS) (d path : GoString)
    (content : List Byte) (hdir : mkdirAll env fs d = some fs1)
    (hcreate : create env fs1 path = some fs2) :
    mkdirAll env (fs2.write path content) d = some (fs2.write path content) := by
  obtain ⟨_, _, _, _, hd⟩ := write_after_create env fs1 fs2 path content hcreate
  unfold mkdirAll at hdir ⊢
  apply ensureAll_idem
  intro p hp
  obtain ⟨loc, hl, hn⟩ := ensureAll_done _ _ _ _ hdir p hp
  exact ⟨loc, locate_mono fs1 _ hd _ _ hl, hd _ hn⟩

theorem copy_complete (limit : Option Nat) (resp : GetResp)
    (h : (copy limit resp).2 = true) : (copy limit resp).1 = resp.body := by
  unfold copy at h ⊢
  cases limit with
  | none => rfl
  | some l =>
    by_cases hl : resp.body.length ≤ l
    · simp only [if_pos hl]
    · simp [if_neg hl] at h

/-! ## Facts about `download` and `syncFile` -/

theorem download_trace (env : Env) (url path : GoString) (w : World) :
    ∃ rest, (download env url path w).trace =
        w.trace ++ Event.print (Msg.downloading url) :: Event.get url :: rest ∧
      ∀ u, Event.head u ∉ rest := by
  unfold download
  cases env.get url with
  | none => exact ⟨[Event.print Msg.getFailed], by simp [World.emit], by simp⟩
  | some resp =>
    simp only [World.emit]
    cases create env w.fs path with
    | none =>
      exact ⟨[Event.barStart resp.contentLength, Event.create path,
        Event.print Msg.createFailed], by simp, by simp⟩
    | some fs2 =>
      by_cases hc : (copy (env.writeLimit path) resp).2 = true
      · exact ⟨[Event.barStart resp.contentLength, Event.create path,
          Event.copy path (copy (env.writeLimit path) resp).1, Event.barFinish],
          by simp [hc], by simp⟩
      · exact ⟨[Event.barStart resp.contentLength, Event.create path,
          Event.copy path (copy (env.writeLimit path) resp).1,
          Event.print Msg.writeFailed], by simp [hc], by simp⟩

theorem download_complete (env : Env) (url path : GoString) (w : World)
    (resp : GetResp) (fs2 : FS) (hget : env.get url = some resp)
    (hcreate : create env w.fs path = some fs2)
    (hcopy : (copy (env.writeLimit path) resp).2 = true) :
    download env url path w =
      { fs := fs2.write path resp.body
        trace := w.trace ++ [Event.print (Msg.downloading url), Event.get url,
          Event.barStart resp.contentLength, Event.create path,
          Event.copy path resp.body, Event.barFinish] } := by
  simp [download, World.emit, hget, hcreate, hcopy, copy_complete _ _ hcopy]

theorem syncFile_finished (cfg : Config) (env : Env) (bucketName pfx key : GoString)
    (w : World)
    (h : (syncFile cfg env bucketName pfx key w).trace.getLast? = some Event.barFinish) :
    ∃ fs1 fs2 resp,
      mkdirAll env w.fs (dir (localFilePath cfg pfx key)) = some fs1 ∧
      env.get (cloudFrontURL cfg pfx key) = some resp ∧
      create env fs1 (localFilePath cfg pfx key) = some fs2 ∧
      (syncFile cfg env bucketName pfx key w).fs =
        fs2.write (localFilePath cfg pfx key) resp.body := by
  unfold syncFile at h ⊢
  simp only [World.emit] at h ⊢
  cases hdir : mkdirAll env w.fs (dir (localFilePath cfg pfx key)) with
  | none => simp [hdir] at h
  | some fs1 =>
    simp only [hdir] at h ⊢
    have hdl : ∀ t,
        (download env (cloudFrontURL cfg pfx key) (localFilePath cfg pfx key)
          { fs := fs1, trace := t }).trace.getLast? = some Event.barFinish →
        ∃ fs2 resp, env.get (cloudFrontURL cfg pfx key) = some resp ∧
          create env fs1 (localFilePath cfg pfx key) = some fs2 ∧
          (download env (cloudFrontURL cfg pfx key) (localFilePath cfg pfx key)
            { fs := fs1, trace := t }).fs =
            fs2.write (localFilePath cfg pfx key) resp.body := by
      intro t ht
      unfold download at ht ⊢
      simp only [World.emit] at ht ⊢
      cases hget : env.get (cloudFrontURL cfg pfx key) with
      | none => simp [hget] at ht
      | some resp =>
        simp only [hget] at ht ⊢
        cases hcreate : create env fs1 (localFilePath cfg pfx key) with
        | none => simp [hcreate] at ht
        | some fs2 =>
          simp only [hcreate] at ht ⊢
          by_cases hc : (copy (env.writeLimit (localFilePath cfg pfx key)) resp).2 = true
          · refine ⟨fs2, resp, rfl, rfl, ?_⟩
            simp [hc, copy_complete _ _ hc]
          · simp [hc] at ht
    cases hstat : stat env fs1 (localFilePath cfg pfx key) with
    | none =>
      simp only [hstat] at h ⊢
      obtain ⟨fs2, resp, h1, h2, h3⟩ := hdl _ h
      exact ⟨fs1, fs2, resp, rfl, h1, h2, h3⟩
    | some size =>
      simp only [hstat] at h ⊢
      cases hhead : env.head (cloudFrontURL cfg pfx key) with
      | none => simp [hhead] at h
      | some remote =>
        simp only [hhead] at h ⊢
        by_cases hs : size = remote
        · simp [hs] at h
        · simp only [if_neg hs] at h ⊢
          obtain ⟨fs2, resp, h1, h2, h3⟩ := hdl _ h
          exact ⟨fs1, fs2, resp, rfl, h1, h2, h3⟩

theorem processed_append (a b : List Event) :
    processed (a ++ b) = processed a ++ processed b := by
  induction a with
  | nil => rfl
  | cons e t ih =>
    cases e with
    | print m => cases m <;> simp [processed, ih]
    | _ => simp [processed, ih]

theorem download_processed (env : Env) (url path : GoString) (w : World) :
    processed (download env url path w).trace = processed w.trace := by
  unfold download
  simp only [World.emit]
  cases env.get url with
  | none => simp [processed_append, processed]
  | some resp =>
    cases create env w.fs path with
    | none => simp [processed_append, processed]
    | some fs2 =>
      by_cases hc : (copy (env.writeLimit path) resp).2 = true <;>
        simp [hc, processed_append, processed]

theorem syncFile_processed (cfg : Config) (env : Env) (bucketName pfx key : GoString)
    (w : World) :
    processed (syncFile cfg env bucketName pfx key w).trace = processed w.trace := by
  unfold syncFile
  simp only [World.emit]
  cases hdir : mkdirAll env w.fs (dir (localFilePath cfg pfx key)) with
  | none => simp [processed_append, processed]
  | some fs1 =>
    simp only []
    cases hstat : stat env fs1 (localFilePath cfg pfx key) with
    | none => simp [download_processed, processed_append, processed]
    | some size =>
      simp only []
      cases hhead : env.head (cloudFrontURL cfg pfx key) with
      | none => simp [processed_append, processed]
      | some remote =>
        by_cases hs : size = remote <;>
          simp [hs, download_processed, processed_append, processed]

theorem syncKeys_processed (cfg : Config) (env : Env) (bucketName pfx : GoString)
    (keys : List GoString) :
    ∀ w, processed (syncKeys cfg env bucketName pfx keys w).trace =
      processed w.trace ++ keys := by
  induction keys with
  | nil => intro w; simp [syncKeys]
  | cons key keys ih =>
    intro w
    simp [syncKeys, ih, syncFile_processed, World.emit, processed_append, processed]

theorem syncPages_processed (cfg : Config) (env : Env) (bucketName pfx : GoString)
    (pages : List (Option (List GoString))) :
    ∀ w, processed (syncPages cfg env bucketName pfx pages w).trace =
      processed w.trace ++ listedKeys pages := by
  induction pages with
  | nil => intro w; simp [syncPages, listedKeys]
  | cons page pages ih =>
    intro w
    cases page with
    | none => simp [syncPages, listedKeys, World.emit, processed_append, processed]
    | some keys =>
      simp [syncPages, listedKeys, ih, syncKeys_processed, World.emit,
        processed_append, processed]

/-! ## The decision of `syncFile` -/

/-- C1: when the directory step has succeeded, the local file exists and its
size equals the `Content-Length` of the HEAD probe, `syncFile` decides SKIP:
it makes exactly the calls `MkdirAll`, `Stat`, `Head`, prints the skip line
and returns.  No GET is issued, no file is created or written, and every
file and directory that existed is still there unchanged. -/
theorem syncFile_skip_on_equal_size (cfg : Config) (env : Env)
    (bucketName pfx key : GoString) (w : World) (fs1 : FS) (size : Int)
    (hdir : mkdirAll env w.fs (dir (localFilePath cfg pfx key)) = some fs1)
    (hstat : stat env w.fs (localFilePath cfg pfx key) = some size)
    (hhead : env.head (cloudFrontURL cfg pfx key) = some size) :
    (syncFile cfg env bucketName pfx key w).trace =
      w.trace ++ [Event.mkdirAll (dir (localFilePath cfg pfx key)),
        Event.stat (localFilePath cfg pfx key),
        Event.head (cloudFrontURL cfg pfx key),
        Event.print (Msg.skipping (localFilePath cfg pfx key))] ∧
    (syncFile cfg env bucketName pfx key w).fs = fs1 ∧
    (∀ q n, w.fs.node q = some n →
      (syncFile cfg env bucketName pfx key w).fs.node q = some n) ∧
    (syncFile cfg env bucketName pfx key w).fs.lookup (localFilePath cfg pfx key) =
      w.fs.lookup (localFilePath cfg pfx key) := by
  have hk := mkdirAll_keeps env w.fs fs1 _ hdir
  have hstat1 := stat_keeps env w.fs fs1 _ size hk hstat
  have hrun : syncFile cfg env bucketName pfx key w =
      { fs := fs1
        trace := w.trace ++ [Event.mkdirAll (dir (localFilePath cfg pfx key)),
          Event.stat (localFilePath cfg pfx key),
          Event.head (cloudFrontURL cfg pfx key),
          Event.print (Msg.skipping (localFilePath cfg pfx key))] } := by
    simp [syncFile, World.emit, hdir, hstat1, hhead]
  rw [hrun]
  refine ⟨rfl, rfl, hk, ?_⟩
  unfold stat at hstat
  cases hn : w.fs.lookup (localFilePath cfg pfx key) with
  | none => rw [hn] at hstat; cases hstat
  | some n => exact lookup_keeps w.fs fs1 hk _ _ hn

/-- C1 at a concrete input, the zero-length case: the local file
`syncedFiles/a.txt` is empty, the probe reports length 0, and the call
leaves the four-event trace of a SKIP. -/
theorem syncFile_skip_on_equal_size_witness :
    stat (exampleEnv "https://cdn.example.com/a.txt".toList (some 0) 0 [] [])
      (exampleFS "a.txt".toList [])
      (localFilePath exampleConfig "logs".toList "logs/a.txt".toList) = some 0 ∧
    (exampleEnv "https://cdn.example.com/a.txt".toList (some 0) 0 [] []).head
      (cloudFrontURL exampleConfig "logs".toList "logs/a.txt".toList) = some 0 ∧
    (syncFile exampleConfig
      (exampleEnv "https://cdn.example.com/a.txt".toList (some 0) 0 [] [])
      "data".toList "logs".toList "logs/a.txt".toList
      ⟨exampleFS "a.txt".toList [], []⟩).trace =
      [Event.mkdirAll "syncedFiles".toList, Event.stat "syncedFiles/a.txt".toList,
        Event.head "https://cdn.example.com/a.txt".toList,
        Event.print (Msg.skipping "syncedFiles/a.txt".toList)] :=
  ⟨by decide, by decide,
    (syncFile_skip_on_equal_size exampleConfig
      (exampleEnv "https://cdn.example.com/a.txt".toList (some 0) 0 [] [])
      "data".toList "logs".toList "logs/a.txt".toList
      ⟨exampleFS "a.txt".toList [], []⟩ (exampleFS "a.txt".toList []) 0
      rfl (by decide) (by decide)).1⟩

/-- C2: when the local file exists and its size differs from the
`Content-Length` of the HEAD probe (`-1`, an unknown length, differs from
every size), `syncFile` decides DOWNLOAD: after `MkdirAll`, `Stat` and `Head`
it prints the download line and issues the GET.  When the GET, the file
creation and the copy succeed, the run ends with the progress bar finished,
and the local file holds exactly the bytes of the response body, so its size
is the number of bytes streamed, whatever it held before. -/
theorem syncFile_download_on_size_mismatch (cfg : Config) (env : Env)
    (bucketName pfx key : GoString) (w : World) (fs1 : FS) (size remote : Int)
    (hdir : mkdirAll env w.fs (dir (localFilePath cfg pfx key)) = some fs1)
    (hstat : stat env w.fs (localFilePath cfg pfx key) = some size)
    (hhead : env.head (cloudFrontURL cfg pfx key) = some remote)
    (hne : size ≠ remote) :
    (∃ rest, (syncFile cfg env bucketName pfx key w).trace =
      w.trace ++ [Event.mkdirAll (dir (localFilePath cfg pfx key)),
        Event.stat (localFilePath cfg pfx key),
        Event.head (cloudFrontURL cfg pfx key),
        Event.print (Msg.downloading (cloudFrontURL cfg pfx key)),
        Event.get (cloudFrontURL cfg pfx key)] ++ rest) ∧
    (∀ resp fs2, env.get (cloudFrontURL cfg pfx key) = some resp →
      create env fs1 (localFilePath cfg pfx key) = some fs2 →
      (copy (env.writeLimit (localFilePath cfg pfx key)) resp).2 = true →
      (syncFile cfg env bucketName pfx key w).trace =
        w.trace ++ [Event.mkdirAll (dir (localFilePath cfg pfx key)),
          Event.stat (localFilePath cfg pfx key),
          Event.head (cloudFrontURL cfg pfx key),
          Event.print (Msg.downloading (cloudFrontURL cfg pfx key)),
          Event.get (cloudFrontURL cfg pfx key),
          Event.barStart resp.contentLength,
          Event.create (localFilePath cfg pfx key),
          Event.copy (localFilePath cfg pfx key) resp.body,
          Event.barFinish] ∧
      (syncFile cfg env bucketName pfx key w).fs.lookup (localFilePath cfg pfx key) =
        some (Node.file resp.body) ∧
      stat env (syncFile cfg env bucketName pfx key w).fs (localFilePath cfg pfx key) =
        some (resp.body.length : Int)) := by
  have hk := mkdirAll_keeps env w.fs fs1 _ hdir
  have hstat1 := stat_keeps env w.fs fs1 _ size hk hstat
  have hrun : syncFile cfg env bucketName pfx key w =
      download env (cloudFrontURL cfg pfx key) (localFilePath cfg pfx key)
        { fs := fs1
          trace := w.trace ++ [Event.mkdirAll (dir (localFilePath cfg pfx key)),
            Event.stat (localFilePath cfg pfx key),
            Event.head (cloudFrontURL cfg pfx key)] } := by
    simp [syncFile, World.emit, hdir, hstat1, hhead, hne]
  rw [hrun]
  constructor
  · obtain ⟨rest, hrest, _⟩ := download_trace env (cloudFrontURL cfg pfx key)
      (localFilePath cfg pfx key)
      { fs := fs1
        trace := w.trace ++ [Event.mkdirAll (dir (localFilePath cfg pfx key)),
          Event.stat (localFilePath cfg pfx key),
          Event.head (cloudFrontURL cfg pfx key)] }
    exact ⟨rest, by rw [hrest]; simp⟩
  · intro resp fs2 hget hcreate hcopy
    rw [download_complete env _ _ _ resp fs2 hget hcreate hcopy]
    refine ⟨by simp, ?_⟩
    exact stat_after_write env fs1 fs2 _ resp.body hcreate

/-- C2 at a concrete input: the local file holds 3 bytes, the probe reports
an unknown length (`-1`), the GET streams 5 bytes; afterwards the file holds
those 5 bytes. -/
theorem syncFile_download_on_size_mismatch_witness :
    stat (exampleEnv "https://cdn.example.com/a.txt".toList (some (-1)) (-1)
        [10, 20, 30, 40, 50] [])
      (exampleFS "a.txt".toList [1, 2, 3])
      (localFilePath exampleConfig "logs".toList "logs/a.txt".toList) = some 3 ∧
    (exampleEnv "https://cdn.example.com/a.txt".toList (some (-1)) (-1)
        [10, 20, 30, 40, 50] []).head
      (cloudFrontURL exampleConfig "logs".toList "logs/a.txt".toList) = some (-1) ∧
    (syncFile exampleConfig
      (exampleEnv "https://cdn.example.com/a.txt".toList (some (-1)) (-1)
        [10, 20, 30, 40, 50] [])
      "data".toList "logs".toList "logs/a.txt".toList
      ⟨exampleFS "a.txt".toList [1, 2, 3], []⟩).fs.lookup
        (localFilePath exampleConfig "logs".toList "logs/a.txt".toList) =
      some (Node.file [10, 20, 30, 40, 50]) :=
  ⟨by decide, by decide,
    ((syncFile_download_on_size_mismatch exampleConfig
      (exampleEnv "https://cdn.example.com/a.txt".toList (some (-1)) (-1)
        [10, 20, 30, 40, 50] [])
      "data".toList "logs".toList "logs/a.txt".toList
      ⟨exampleFS "a.txt".toList [1, 2, 3], []⟩ (exampleFS "a.txt".toList [1, 2, 3])
      3 (-1) rfl (by decide) (by decide) (by decide)).2
      ⟨-1, [10, 20, 30, 40, 50], false⟩
      ((exampleFS "a.txt".toList [1, 2, 3]).set "syncedFiles/a.txt".toList (Node.file []))
      (by decide) rfl rfl).2.1⟩

/-- C3 as the code has it: when the directory step has succeeded and `Stat`
finds nothing at the local path, `syncFile` decides DOWNLOAD without a
probe: the calls after `MkdirAll` and `Stat` start with the download line
and the GET on the key's CDN URL, and no HEAD is issued in the whole call. -/
theorem syncFile_download_when_absent (cfg : Config) (env : Env)
    (bucketName pfx key : GoString) (w : World) (fs1 : FS)
    (hdir : mkdirAll env w.fs (dir (localFilePath cfg pfx key)) = some fs1)
    (hstat : stat env fs1 (localFilePath cfg pfx key) = none) :
    ∃ rest, (syncFile cfg env bucketName pfx key w).trace =
      w.trace ++ [Event.mkdirAll (dir (localFilePath cfg pfx key)),
        Event.stat (localFilePath cfg pfx key),
        Event.print (Msg.downloading (cloudFrontURL cfg pfx key)),
        Event.get (cloudFrontURL cfg pfx key)] ++ rest ∧
      ∀ u, Event.head u ∉ rest := by
  have hrun : syncFile cfg env bucketName pfx key w =
      download env (cloudFrontURL cfg pfx key) (localFilePath cfg pfx key)
        { fs := fs1
          trace := w.trace ++ [Event.mkdirAll (dir (localFilePath cfg pfx key)),
            Event.stat (localFilePath cfg pfx key)] } := by
    simp [syncFile, World.emit, hdir, hstat]
  rw [hrun]
  obtain ⟨rest, hrest, hno⟩ := download_trace env (cloudFrontURL cfg pfx key)
    (localFilePath cfg pfx key)
    { fs := fs1
      trace := w.trace ++ [Event.mkdirAll (dir (localFilePath cfg pfx key)),
        Event.stat (localFilePath cfg pfx key)] }
  exact ⟨rest, by rw [hrest]; simp, hno⟩

/-- C3 at a concrete input: nothing is at `syncedFiles/a.txt`, the probe
would fail, and the call issues the GET and writes the 5 bytes. -/
theorem syncFile_download_when_absent_witness :
    stat (exampleEnv "https://cdn.example.com/a.txt".toList none 5
        [10, 20, 30, 40, 50] [])
      (exampleFS "b.txt".toList [])
      (localFilePath exampleConfig "logs".toList "logs/a.txt".toList) = none ∧
    ∃ rest, (syncFile exampleConfig
      (exampleEnv "https://cdn.example.com/a.txt".toList none 5
        [10, 20, 30, 40, 50] [])
      "data".toList "logs".toList "logs/a.txt".toList
      ⟨exampleFS "b.txt".toList [], []⟩).trace =
      [] ++ [Event.mkdirAll (dir (localFilePath exampleConfig "logs".toList
          "logs/a.txt".toList)),
        Event.stat (localFilePath exampleConfig "logs".toList "logs/a.txt".toList),
        Event.print (Msg.downloading (cloudFrontURL exampleConfig "logs".toList
          "logs/a.txt".toList)),
        Event.get (cloudFrontURL exampleConfig "logs".toList "logs/a.txt".toList)]
        ++ rest ∧
      ∀ u, Event.head u ∉ rest :=
  ⟨by decide,
    syncFile_download_when_absent exampleConfig
      (exampleEnv "https://cdn.example.com/a.txt".toList none 5
        [10, 20, 30, 40, 50] [])
      "data".toList "logs".toList "logs/a.txt".toList
      ⟨exampleFS "b.txt".toList [], []⟩ (exampleFS "b.txt".toList [])
      rfl (by decide)⟩

/-- C3 as stated fails when the directory step fails: with a regular file at
`syncedFiles/a`, nothing is at the local path `syncedFiles/a/b` of the key
`logs/a/b`, the CDN serves the object, and yet `syncFile` returns after the
failed `MkdirAll` without issuing a GET. -/
theorem syncFile_absent_without_get :
    stat (exampleEnv "https://cdn.example.com/a/b".toList (some 5) 5
        [10, 20, 30, 40, 50] [])
      (exampleFS "a".toList [1, 2, 3])
      (localFilePath exampleConfig "logs".toList "logs/a/b".toList) = none ∧
    (exampleEnv "https://cdn.example.com/a/b".toList (some 5) 5
        [10, 20, 30, 40, 50] []).get
      (cloudFrontURL exampleConfig "logs".toList "logs/a/b".toList) =
      some ⟨5, [10, 20, 30, 40, 50], false⟩ ∧
    (syncFile exampleConfig
      (exampleEnv "https://cdn.example.com/a/b".toList (some 5) 5
        [10, 20, 30, 40, 50] [])
      "data".toList "logs".toList "logs/a/b".toList
      ⟨exampleFS "a".toList [1, 2, 3], []⟩).trace =
      [Event.mkdirAll "syncedFiles/a".toList,
        Event.print (Msg.mkdirFailed "syncedFiles/a/b".toList)] := by
  decide

/-- C4 as the code has it: after a call of `syncFile` that completed a
download (its trace ends with the progress bar finished), a second call for
the same key against the same environment decides SKIP, issuing no GET and
leaving the file system as it is, provided the HEAD probe of the URL answers
with a `Content-Length` equal to the number of bytes the GET streams. -/
theorem syncFile_round_trip (cfg : Config) (env : Env)
    (bucketName pfx key : GoString) (w : World) (resp : GetResp)
    (hdone : (syncFile cfg env bucketName pfx key w).trace.getLast? =
      some Event.barFinish)
    (hget : env.get (cloudFrontURL cfg pfx key) = some resp)
    (hhead : env.head (cloudFrontURL cfg pfx key) = some (resp.body.length : Int)) :
    syncFile cfg env bucketName pfx key (syncFile cfg env bucketName pfx key w) =
      { fs := (syncFile cfg env bucketName pfx key w).fs
        trace := (syncFile cfg env bucketName pfx key w).trace ++
          [Event.mkdirAll (dir (localFilePath cfg pfx key)),
            Event.stat (localFilePath cfg pfx key),
            Event.head (cloudFrontURL cfg pfx key),
            Event.print (Msg.skipping (localFilePath cfg pfx key))] } := by
  obtain ⟨fs1, fs2, resp1, hdir, hget1, hcreate, hfs⟩ :=
    syncFile_finished cfg env bucketName pfx key w hdone
  have hresp : resp1 = resp := by
    rw [hget] at hget1; exact (Option.some.inj hget1).symm
  subst hresp
  have hdir2 := mkdirAll_again env w.fs fs1 fs2 _ _ resp1.body hdir hcreate
  have hstat2 := (stat_after_write env fs1 fs2 _ resp1.body hcreate).2
  generalize syncFile cfg env bucketName pfx key w = w1 at hfs ⊢
  rw [← hfs] at hdir2 hstat2
  simp [syncFile, World.emit, hdir2, hstat2, hhead]

/-- C4 at a concrete input: starting with no local file, the first call
downloads 5 bytes; the probe reports length 5, and the second call adds only
the four calls of a SKIP. -/
theorem syncFile_round_trip_witness :
    (syncFile exampleConfig
      (exampleEnv "https://cdn.example.com/a.txt".toList (some 5) 5
        [10, 20, 30, 40, 50] [])
      "data".toList "logs".toList "logs/a.txt".toList ⟨FS.empty, []⟩).trace.getLast? =
      some Event.barFinish ∧
    (syncFile exampleConfig
      (exampleEnv "https://cdn.example.com/a.txt".toList (some 5) 5
        [10, 20, 30, 40, 50] [])
      "data".toList "logs".toList "logs/a.txt".toList
      (syncFile exampleConfig
        (exampleEnv "https://cdn.example.com/a.txt".toList (some 5) 5
          [10, 20, 30, 40, 50] [])
        "data".toList "logs".toList "logs/a.txt".toList ⟨FS.empty, []⟩)).trace =
      (syncFile exampleConfig
        (exampleEnv "https://cdn.example.com/a.txt".toList (some 5) 5
          [10, 20, 30, 40, 50] [])
        "data".toList "logs".toList "logs/a.txt".toList ⟨FS.empty, []⟩).trace ++
        [Event.mkdirAll (dir (localFilePath exampleConfig "logs".toList
            "logs/a.txt".toList)),
          Event.stat (localFilePath exampleConfig "logs".toList "logs/a.txt".toList),
          Event.head (cloudFrontURL exampleConfig "logs".toList "logs/a.txt".toList),
          Event.print (Msg.skipping (localFilePath exampleConfig "logs".toList
            "logs/a.txt".toList))] :=
  ⟨by decide,
    congrArg World.trace
      (syncFile_round_trip exampleConfig
        (exampleEnv "https://cdn.example.com/a.txt".toList (some 5) 5
          [10, 20, 30, 40, 50] [])
        "data".toList "logs".toList "logs/a.txt".toList ⟨FS.empty, []⟩
        ⟨5, [10, 20, 30, 40, 50], false⟩ (by decide) (by decide) (by decide))⟩

/-- C4 as stated fails for an object whose length the CDN does not declare:
the first call downloads the 5 bytes and finishes, the object does not
change, the probe of the second call reports `-1`, and the second call
issues a second GET and rewrites the file. -/
theorem syncFile_round_trip_downloads_again :
    (syncFile exampleConfig
      (exampleEnv "https://cdn.example.com/a.txt".toList (some (-1)) (-1)
        [10, 20, 30, 40, 50] [])
      "data".toList "logs".toList "logs/a.txt".toList ⟨FS.empty, []⟩).trace =
      [Event.mkdirAll "syncedFiles".toList, Event.stat "syncedFiles/a.txt".toList,
        Event.print (Msg.downloading "https://cdn.example.com/a.txt".toList),
        Event.get "https://cdn.example.com/a.txt".toList,
        Event.barStart (-1), Event.create "syncedFiles/a.txt".toList,
        Event.copy "syncedFiles/a.txt".toList [10, 20, 30, 40, 50],
        Event.barFinish] ∧
    (syncFile exampleConfig
      (exampleEnv "https://cdn.example.com/a.txt".toList (some (-1)) (-1)
        [10, 20, 30, 40, 50] [])
      "data".toList "logs".toList "logs/a.txt".toList
      (syncFile exampleConfig
        (exampleEnv "https://cdn.example.com/a.txt".toList (some (-1)) (-1)
          [10, 20, 30, 40, 50] [])
        "data".toList "logs".toList "logs/a.txt".toList ⟨FS.empty, []⟩)).trace.drop 8 =
      [Event.mkdirAll "syncedFiles".toList, Event.stat "syncedFiles/a.txt".toList,
        Event.head "https://cdn.example.com/a.txt".toList,
        Event.print (Msg.downloading "https://cdn.example.com/a.txt".toList),
        Event.get "https://cdn.example.com/a.txt".toList,
        Event.barStart (-1), Event.create "syncedFiles/a.txt".toList,
        Event.copy "syncedFiles/a.txt".toList [10, 20, 30, 40, 50],
        Event.barFinish] := by
  decide

/-! ## The driver -/

theorem syncKeys_eq_driveKeys (cfg : Config) (env : Env) (bucketName pfx : GoString)
    (keys : List GoString) :
    ∀ w, syncKeys cfg env bucketName pfx keys w =
      driveKeys cfg env bucketName pfx w keys := by
  induction keys with
  | nil => intro w; rfl
  | cons key keys ih =>
    intro w
    simp only [syncKeys, ih, driveKeys, List.foldl_cons]

theorem driveKeys_append (cfg : Config) (env : Env) (bucketName pfx : GoString)
    (w : World) (pre post : List GoString) (key : GoString) :
    driveKeys cfg env bucketName pfx w (pre ++ key :: post) =
      driveKeys cfg env bucketName pfx
        (syncFile cfg env bucketName pfx key
          ((driveKeys cfg env bucketName pfx w pre).emit
            (Event.print (Msg.processing key))))
        post := by
  simp only [driveKeys, List.foldl_append, List.foldl_cons]

theorem driveListing_cons (cfg : Config) (env : Env) (bucketName pfx : GoString)
    (w : World) (keys : List GoString) (pages : List (Option (List GoString))) :
    driveListing cfg env bucketName pfx w (some keys :: pages) =
      driveListing cfg env bucketName pfx
        (driveKeys cfg env bucketName pfx (w.emit (Event.nextPage bucketName pfx)) keys)
        pages := by
  simp only [driveListing, listingFails, fetchedPages, drivePages, List.foldl_cons]

theorem driveListing_append (cfg : Config) (env : Env) (bucketName pfx : GoString)
    (before : List (List GoString)) (pages : List (Option (List GoString))) :
    ∀ w, driveListing cfg env bucketName pfx w (before.map some ++ pages) =
      driveListing cfg env bucketName pfx
        (drivePages cfg env bucketName pfx w before) pages := by
  induction before with
  | nil => intro w; rfl
  | cons keys before ih =>
    intro w
    simp only [List.map_cons, List.cons_append, driveListing_cons, ih]
    simp only [drivePages, List.foldl_cons]

theorem syncPages_eq_driveListing (cfg : Config) (env : Env) (bucketName pfx : GoString)
    (pages : List (Option (List GoString))) :
    ∀ w, syncPages cfg env bucketName pfx pages w =
      driveListing cfg env bucketName pfx w pages := by
  induction pages with
  | nil => intro w; rfl
  | cons page pages ih =>
    intro w
    cases page with
    | none => rfl
    | some keys =>
      simp only [syncPages, ih, syncKeys_eq_driveKeys, driveListing_cons]

theorem syncFile_probe_failure (cfg : Config) (env : Env)
    (bucketName pfx key : GoString) (w : World) (fs1 : FS) (size : Int)
    (hdir : mkdirAll env w.fs (dir (localFilePath cfg pfx key)) = some fs1)
    (hstat : stat env w.fs (localFilePath cfg pfx key) = some size)
    (hhead : env.head (cloudFrontURL cfg pfx key) = none) :
    syncFile cfg env bucketName pfx key w =
      { fs := fs1
        trace := w.trace ++ [Event.mkdirAll (dir (localFilePath cfg pfx key)),
          Event.stat (localFilePath cfg pfx key),
          Event.head (cloudFrontURL cfg pfx key),
          Event.print Msg.headFailed] } := by
  have hk := mkdirAll_keeps env w.fs fs1 _ hdir
  have hstat1 := stat_keeps env w.fs fs1 _ size hk hstat
  simp [syncFile, World.emit, hdir, hstat1, hhead]

/-- C8: a failed probe is a failure of one key only.  Take a run of `main`
whose arguments pass the check, whose SDK configuration loads and whose root
directory is made, and a key of its listing: after the fetched pages
`before`, in a page after the keys `pre` and before the keys `post`, with the
pages `after` still to come.  When the driver reaches the key, its local file
exists and its HEAD probe fails.  Then `syncFile` adds to the trace the calls
`MkdirAll`, `Stat`, `Head` and the error line, hence no GET, and keeps every
file and directory that existed; from the state it returns the driver calls
`syncFile` for every key of `post` in order and goes on with the pages
`after`, which gives the final state of `main`; the `Processing` lines of the
run are the listed keys in order; and the run ends with exit status 0. -/
theorem probe_failure_is_per_key (cfg : Config) (env : Env) (fs fsr : FS)
    (bucketName pfx : GoString) (before : List (List GoString))
    (pre post : List GoString) (after : List (Option (List GoString)))
    (key : GoString) (fs1 : FS) (size : Int)
    (hparse : parseBucketArg cfg.bucketArg = (bucketName, pfx))
    (hargs : ¬ (trimSpace bucketName = [] ∨ trimSpace cfg.cloudFrontDomain = []))
    (hcfg : env.loadConfig = true)
    (hroot : mkdirAll env fs cfg.localSyncDir = some fsr)
    (hlist : env.listPages bucketName pfx =
      before.map some ++ some (pre ++ key :: post) :: after)
    (hdir : mkdirAll env (reached cfg env bucketName pfx fsr before pre).fs
      (dir (localFilePath cfg pfx key)) = some fs1)
    (hstat : stat env (reached cfg env bucketName pfx fsr before pre).fs
      (localFilePath cfg pfx key) = some size)
    (hhead : env.head (cloudFrontURL cfg pfx key) = none) :
    (main cfg env fs).exit = 0 ∧
    (main cfg env fs).world =
      driveListing cfg env bucketName pfx
        (driveKeys cfg env bucketName pfx
          { fs := fs1
            trace := (reached cfg env bucketName pfx fsr before pre).trace ++
              [Event.print (Msg.processing key),
                Event.mkdirAll (dir (localFilePath cfg pfx key)),
                Event.stat (localFilePath cfg pfx key),
                Event.head (cloudFrontURL cfg pfx key),
                Event.print Msg.headFailed] }
          post)
        after ∧
    (∀ q n, (reached cfg env bucketName pfx fsr before pre).fs.node q = some n →
      fs1.node q = some n) ∧
    processed (main cfg env fs).world.trace =
      listedKeys (env.listPages bucketName pfx) := by
  have hmain : main cfg env fs =
      { exit := 0
        world := syncPages cfg env bucketName pfx (env.listPages bucketName pfx)
          { fs := fsr, trace := [Event.loadConfig, Event.mkdirAll cfg.localSyncDir] } } := by
    simp only [main, hparse, if_neg hargs, hcfg, hroot]
    simp
  have hstep := syncFile_probe_failure cfg env bucketName pfx key
    ((reached cfg env bucketName pfx fsr before pre).emit
      (Event.print (Msg.processing key))) fs1 size hdir hstat hhead
  refine ⟨by rw [hmain], ?_, mkdirAll_keeps env _ fs1 _ hdir, ?_⟩
  · rw [hmain]
    simp only [syncPages_eq_driveListing, hlist, driveListing_append, driveListing_cons,
      driveKeys_append]
    have hr : driveKeys cfg env bucketName pfx
        ((drivePages cfg env bucketName pfx
          { fs := fsr, trace := [Event.loadConfig, Event.mkdirAll cfg.localSyncDir] }
          before).emit (Event.nextPage bucketName pfx)) pre =
        reached cfg env bucketName pfx fsr before pre := rfl
    rw [hr, hstep]
    simp [World.emit]
  · rw [hmain]
    simp [syncPages_processed, processed]

/-- C8 at a concrete input: the listing returns `logs/a.txt` and
`logs/b.txt` in one page, the file of the first exists and its probe fails;
the run adds the four calls of the failed probe for the first key, goes on to
the second key, whose GET fails, and exits with status 0. -/
theorem probe_failure_is_per_key_witness :
    stat (exampleEnv "https://cdn.example.com/a.txt".toList none 3 [1, 2, 3]
        ["logs/a.txt".toList, "logs/b.txt".toList])
      (reached exampleConfig
        (exampleEnv "https://cdn.example.com/a.txt".toList none 3 [1, 2, 3]
          ["logs/a.txt".toList, "logs/b.txt".toList])
        "data".toList "logs".toList (exampleFS "a.txt".toList [1, 2, 3]) [] []).fs
      (localFilePath exampleConfig "logs".toList "logs/a.txt".toList) = some 3 ∧
    (exampleEnv "https://cdn.example.com/a.txt".toList none 3 [1, 2, 3]
        ["logs/a.txt".toList, "logs/b.txt".toList]).head
      (cloudFrontURL exampleConfig "logs".toList "logs/a.txt".toList) = none ∧
    (main exampleConfig
      (exampleEnv "https://cdn.example.com/a.txt".toList none 3 [1, 2, 3]
        ["logs/a.txt".toList, "logs/b.txt".toList])
      (exampleFS "a.txt".toList [1, 2, 3])).exit = 0 ∧
    (main exampleConfig
      (exampleEnv "https://cdn.example.com/a.txt".toList none 3 [1, 2, 3]
        ["logs/a.txt".toList, "logs/b.txt".toList])
      (exampleFS "a.txt".toList [1, 2, 3])).world.trace =
      [Event.loadConfig, Event.mkdirAll "./syncedFiles".toList,
        Event.nextPage "data".toList "logs".toList,
        Event.print (Msg.processing "logs/a.txt".toList),
        Event.mkdirAll "syncedFiles".toList, Event.stat "syncedFiles/a.txt".toList,
        Event.head "https://cdn.example.com/a.txt".toList,
        Event.print Msg.headFailed,
        Event.print (Msg.processing "logs/b.txt".toList),
        Event.mkdirAll "syncedFiles".toList, Event.stat "syncedFiles/b.txt".toList,
        Event.print (Msg.downloading "https://cdn.example.com/b.txt".toList),
        Event.get "https://cdn.example.com/b.txt".toList,
        Event.print Msg.getFailed] :=
  ⟨by decide, by decide,
    (probe_failure_is_per_key exampleConfig
      (exampleEnv "https://cdn.example.com/a.txt".toList none 3 [1, 2, 3]
        ["logs/a.txt".toList, "logs/b.txt".toList])
      (exampleFS "a.txt".toList [1, 2, 3]) (exampleFS "a.txt".toList [1, 2, 3])
      "data".toList "logs".toList [] [] ["logs/b.txt".toList] []
      "logs/a.txt".toList (exampleFS "a.txt".toList [1, 2, 3]) 3
      (by decide) (by decide) rfl rfl rfl rfl (by decide) (by decide)).1,
    by decide⟩

/-! ## The end-to-end scenario -/

/-- C5 as the code has it: the bucket argument `data/logs` names the bucket
`data` and the prefix `logs`.  With the CDN domain
`https://cdn.example.com`, the local directory `./syncedFiles`, nothing on
the local side, and the one listed key `logs/a.txt` whose 10 bytes are served
at `https://cdn.example.com/a.txt`, the run exits with status 0, its only
request is the GET of that URL, and afterwards `./syncedFiles/a.txt` is a
file of 10 bytes. -/
theorem end_to_end_scenario (env : Env) (resp : GetResp)
    (hcfg : env.loadConfig = true)
    (hlist : env.listPages "data".toList "logs".toList = [some ["logs/a.txt".toList]])
    (hget : env.get "https://cdn.example.com/a.txt".toList = some resp)
    (hlen : resp.body.length = 10) (hread : resp.readErr = false)
    (hmk : ∀ p, env.mkdirDenied p = false)
    (hcr : ∀ p, env.createDenied p = false)
    (hwl : ∀ p, env.writeLimit p = none) :
    (main exampleConfig env FS.empty).exit = 0 ∧
    (main exampleConfig env FS.empty).world.trace =
      [Event.loadConfig, Event.mkdirAll "./syncedFiles".toList,
        Event.nextPage "data".toList "logs".toList,
        Event.print (Msg.processing "logs/a.txt".toList),
        Event.mkdirAll "syncedFiles".toList, Event.stat "syncedFiles/a.txt".toList,
        Event.print (Msg.downloading "https://cdn.example.com/a.txt".toList),
        Event.get "https://cdn.example.com/a.txt".toList,
        Event.barStart resp.contentLength,
        Event.create "syncedFiles/a.txt".toList,
        Event.copy "syncedFiles/a.txt".toList resp.body, Event.barFinish] ∧
    (main exampleConfig env FS.empty).world.fs.lookup "./syncedFiles/a.txt".toList =
      some (Node.file resp.body) ∧
    stat env (main exampleConfig env FS.empty).world.fs "./syncedFiles/a.txt".toList =
      some 10 := by
  have hparse : parseBucketArg exampleConfig.bucketArg =
      ("data".toList, "logs".toList) := by decide
  have hargs : ¬ (trimSpace (parseBucketArg exampleConfig.bucketArg).1 = [] ∨
      trimSpace exampleConfig.cloudFrontDomain = []) := by decide
  have hpath : localFilePath exampleConfig "logs".toList "logs/a.txt".toList =
      "syncedFiles/a.txt".toList := by decide
  have hurl : cloudFrontURL exampleConfig "logs".toList "logs/a.txt".toList =
      "https://cdn.example.com/a.txt".toList := by decide
  have hdirp : dir "syncedFiles/a.txt".toList = "syncedFiles".toList := by decide
  have hroot : mkdirAll env FS.empty exampleConfig.localSyncDir =
      some (FS.empty.set "syncedFiles".toList Node.dir) := by
    have ha : mkdirChain [] exampleConfig.localSyncDir =
        ["./".toList, "./syncedFiles".toList] := by decide
    have h1 : locate FS.empty "./".toList = some ".".toList := by decide
    have h2 : FS.empty.node ".".toList = some Node.dir := by decide
    have h3 : locate FS.empty "./syncedFiles".toList = some "syncedFiles".toList := by
      decide
    have h4 : FS.empty.node "syncedFiles".toList = none := by decide
    rw [mkdirAll, ha]
    simp only [ensureAll, ensureDir, h1, h2, h3, h4, hmk]
    rfl
  have hsub : mkdirAll env (FS.empty.set "syncedFiles".toList Node.dir)
      "syncedFiles".toList = some (FS.empty.set "syncedFiles".toList Node.dir) := by
    have ha : mkdirChain [] "syncedFiles".toList = ["syncedFiles".toList] := by decide
    have h1 : locate (FS.empty.set "syncedFiles".toList Node.dir) "syncedFiles".toList =
        some "syncedFiles".toList := by decide
    have h2 : (FS.empty.set "syncedFiles".toList Node.dir).node "syncedFiles".toList =
        some Node.dir := by decide
    rw [mkdirAll, ha]
    simp only [ensureAll, ensureDir, h1, h2]
  have hstat : stat env (FS.empty.set "syncedFiles".toList Node.dir)
      "syncedFiles/a.txt".toList = none := by
    have hl : (FS.empty.set "syncedFiles".toList Node.dir).lookup
        "syncedFiles/a.txt".toList = none := by decide
    simp only [stat, hl]
  have hcreate : create env (FS.empty.set "syncedFiles".toList Node.dir)
      "syncedFiles/a.txt".toList =
      some ((FS.empty.set "syncedFiles".toList Node.dir).set
        "syncedFiles/a.txt".toList (Node.file [])) := by
    have hl : resolve (FS.empty.set "syncedFiles".toList Node.dir)
        "syncedFiles/a.txt".toList = some "syncedFiles/a.txt".toList := by decide
    have hp : (FS.empty.set "syncedFiles".toList Node.dir).node
        "syncedFiles/a.txt".toList = none := by decide
    simp only [create, hcr, hl, hp]
    rfl
  have hcopy : (copy (env.writeLimit "syncedFiles/a.txt".toList) resp).2 = true := by
    simp [copy, hwl, hread]
  have hrun : main exampleConfig env FS.empty =
      { exit := 0
        world := download env "https://cdn.example.com/a.txt".toList
          "syncedFiles/a.txt".toList
          { fs := FS.empty.set "syncedFiles".toList Node.dir
            trace := [Event.loadConfig, Event.mkdirAll "./syncedFiles".toList,
              Event.nextPage "data".toList "logs".toList,
              Event.print (Msg.processing "logs/a.txt".toList),
              Event.mkdirAll "syncedFiles".toList,
              Event.stat "syncedFiles/a.txt".toList] } } := by
    simp only [main, if_neg hargs, hcfg, hroot, hparse, hlist, syncPages, syncKeys,
      syncFile, World.emit, hpath, hurl, hdirp, hsub, hstat]
    rfl
  rw [hrun, download_complete env _ _ _ resp _ hget hcreate hcopy]
  have hw : ((FS.empty.set "syncedFiles".toList Node.dir).set
      "syncedFiles/a.txt".toList (Node.file [])).write "syncedFiles/a.txt".toList
      resp.body =
      ((FS.empty.set "syncedFiles".toList Node.dir).set
        "syncedFiles/a.txt".toList (Node.file [])).set "syncedFiles/a.txt".toList
        (Node.file resp.body) := by
    have hl : resolve ((FS.empty.set "syncedFiles".toList Node.dir).set
        "syncedFiles/a.txt".toList (Node.file [])) "syncedFiles/a.txt".toList =
        some "syncedFiles/a.txt".toList := by decide
    simp only [FS.write, hl]
  have hfinal : (((FS.empty.set "syncedFiles".toList Node.dir).set
      "syncedFiles/a.txt".toList (Node.file [])).write "syncedFiles/a.txt".toList
      resp.body).lookup "./syncedFiles/a.txt".toList = some (Node.file resp.body) := by
    have hl : resolve ((FS.empty.set "syncedFiles".toList Node.dir).set
        "syncedFiles/a.txt".toList (Node.file [])) "./syncedFiles/a.txt".toList =
        some "syncedFiles/a.txt".toList := by decide
    have hnd : ((FS.empty.set "syncedFiles".toList Node.dir).set
        "syncedFiles/a.txt".toList (Node.file [])).node "syncedFiles/a.txt".toList ≠
        some Node.dir := by decide
    have hr : isRoot "syncedFiles/a.txt".toList = false := by decide
    rw [hw, FS.lookup, resolve_mono _ _ (set_keeps_dirs _ _ _ hnd) _ _ hl]
    simp only []
    rw [node_set, hr]
    simp
  refine ⟨rfl, by simp, hfinal, ?_⟩
  simp only [stat, hfinal, hlen]
  rfl

/-- C5 at a concrete environment: ten zero bytes served at
`https://cdn.example.com/a.txt`. -/
theorem end_to_end_scenario_witness :
    (exampleEnv "https://cdn.example.com/a.txt".toList none 10 (List.replicate 10 0)
      ["logs/a.txt".toList]).get "https://cdn.example.com/a.txt".toList =
      some ⟨10, List.replicate 10 0, false⟩ ∧
    stat (exampleEnv "https://cdn.example.com/a.txt".toList none 10
        (List.replicate 10 0) ["logs/a.txt".toList])
      (main exampleConfig
        (exampleEnv "https://cdn.example.com/a.txt".toList none 10
          (List.replicate 10 0) ["logs/a.txt".toList])
        FS.empty).world.fs "./syncedFiles/a.txt".toList = some 10 :=
  ⟨by decide,
    (end_to_end_scenario
      (exampleEnv "https://cdn.example.com/a.txt".toList none 10 (List.replicate 10 0)
        ["logs/a.txt".toList])
      ⟨10, List.replicate 10 0, false⟩ rfl rfl (by decide) (by decide) rfl
      (fun _ => rfl) (fun _ => rfl) (fun _ => rfl)).2.2.2⟩

/-- C5 as stated fails: with the listed key `data/logs/a.txt` the prefix
`logs` is not a prefix of the key, so nothing is stripped; the run requests
`https://cdn.example.com/data/logs/a.txt`, never the URL
`https://cdn.example.com/a.txt` at which the 10 bytes are served, and at the
end nothing is at `./syncedFiles/a.txt`. -/
theorem end_to_end_scenario_as_stated :
    (main exampleConfig
      (exampleEnv "https://cdn.example.com/a.txt".toList (some 10) 10
        (List.replicate 10 0) ["data/logs/a.txt".toList])
      FS.empty).world.trace =
      [Event.loadConfig, Event.mkdirAll "./syncedFiles".toList,
        Event.nextPage "data".toList "logs".toList,
        Event.print (Msg.processing "data/logs/a.txt".toList),
        Event.mkdirAll "syncedFiles/data/logs".toList,
        Event.stat "syncedFiles/data/logs/a.txt".toList,
        Event.print (Msg.downloading "https://cdn.example.com/data/logs/a.txt".toList),
        Event.get "https://cdn.example.com/data/logs/a.txt".toList,
        Event.print Msg.getFailed] ∧
    stat (exampleEnv "https://cdn.example.com/a.txt".toList (some 10) 10
        (List.replicate 10 0) ["data/logs/a.txt".toList])
      (main exampleConfig
        (exampleEnv "https://cdn.example.com/a.txt".toList (some 10) 10
          (List.replicate 10 0) ["data/logs/a.txt".toList])
        FS.empty).world.fs "./syncedFiles/a.txt".toList = none := by
  decide

/-! ## The two stripping rules -/

/-- C7 at a failing input.  The bucket argument `b/data/logs/` gives the
prefix `data/logs/`; for the listed key `data/logs/a.txt` line 91 strips the
prefix and names the local file `syncedFiles/a.txt`, while line 92 looks for
`data/logs//`, strips nothing and requests
`https://cdn.example.com/data/logs/a.txt`: the local name is not the URL path
joined under `localSyncDir`.  With the prefix `data/logs` the same key and
the same local file get the URL `https://cdn.example.com/a.txt`. -/
theorem strip_rules_disagree :
    parseBucketArg "b/data/logs/".toList = ("b".toList, "data/logs/".toList) ∧
    localFilePath exampleConfig "data/logs/".toList "data/logs/a.txt".toList =
      "syncedFiles/a.txt".toList ∧
    cloudFrontURL exampleConfig "data/logs/".toList "data/logs/a.txt".toList =
      "https://cdn.example.com/data/logs/a.txt".toList ∧
    localFilePath exampleConfig "data/logs/".toList "data/logs/a.txt".toList ≠
      join [exampleConfig.localSyncDir,
        trimPrefix "data/logs/a.txt".toList ("data/logs/".toList ++ ['/'])] ∧
    localFilePath exampleConfig "data/logs".toList "data/logs/a.txt".toList =
      "syncedFiles/a.txt".toList ∧
    cloudFrontURL exampleConfig "data/logs".toList "data/logs/a.txt".toList =
      "https://cdn.example.com/a.txt".toList := by
  decide

/-! ## `parseBucketArg` and the argument check -/

/-- C6: `parseBucketArg` splits at the first `/` only.  An argument `b`
without `/` gives bucket `b` and the empty prefix; an argument `b/p`, with no
`/` in `b`, gives bucket `b` and prefix `p` unchanged, whatever further `/`
characters `p` holds. -/
theorem parseBucketArg_first_slash (b p : GoString) (hb : '/' ∉ b) :
    parseBucketArg b = (b, []) ∧ parseBucketArg (b ++ '/' :: p) = (b, p) := by
  constructor
  · simp [parseBucketArg, splitN, cut_eq_none _ _ hb]
  · simp [parseBucketArg, splitN, cut_append _ _ _ hb]

/-- C6 at the inputs of the specification: `"b"` gives `("b", "")` and
`"b/p1/p2"` gives `("b", "p1/p2")`. -/
theorem parseBucketArg_first_slash_witness :
    '/' ∉ "b".toList ∧
    parseBucketArg "b".toList = ("b".toList, []) ∧
    parseBucketArg "b/p1/p2".toList = ("b".toList, "p1/p2".toList) :=
  ⟨by decide, parseBucketArg_first_slash "b".toList "p1/p2".toList (by decide)⟩

/-- C9: the argument check of `main` fails exactly when the bucket name that
`parseBucketArg` returns, or the CDN domain, is empty after trimming white
space.  When it fails the run prints the error and the usage and exits with
status 1 without touching the listing, the network or the file system; a run
that exits with status 1 has failed this check; and every bucket argument
that starts with `/` fails it. -/
theorem main_argument_check (cfg : Config) (env : Env) (fs : FS) :
    ((trimSpace (parseBucketArg cfg.bucketArg).1 = [] ∨
        trimSpace cfg.cloudFrontDomain = []) →
      (main cfg env fs).exit = 1 ∧
      (main cfg env fs).world.trace = [Event.print Msg.usageError, Event.usage] ∧
      (main cfg env fs).world.fs = fs) ∧
    ((main cfg env fs).exit = 1 →
      (trimSpace (parseBucketArg cfg.bucketArg).1 = [] ∨
        trimSpace cfg.cloudFrontDomain = [])) ∧
    (∀ rest, cfg.bucketArg = '/' :: rest → (main cfg env fs).exit = 1) := by
  have hfail : (trimSpace (parseBucketArg cfg.bucketArg).1 = [] ∨
        trimSpace cfg.cloudFrontDomain = []) →
      (main cfg env fs).exit = 1 ∧
      (main cfg env fs).world.trace = [Event.print Msg.usageError, Event.usage] ∧
      (main cfg env fs).world.fs = fs := by
    intro h
    simp only [main, if_pos h, and_self]
  refine ⟨hfail, ?_, ?_⟩
  · intro h
    by_contra hn
    simp only [main, if_neg hn] at h
    by_cases hc : env.loadConfig = false
    · simp [if_pos hc] at h
    · simp only [if_neg hc] at h
      cases hm : mkdirAll env fs cfg.localSyncDir <;> simp [hm] at h
  · intro rest hrest
    refine (hfail (Or.inl ?_)).1
    rw [hrest]
    simp [parseBucketArg, splitN, cut, trimSpace]

/-- C9 at concrete arguments: `"/logs"` has the empty bucket name and is
rejected with exit status 1. -/
theorem main_argument_check_witness :
    (main ⟨"/logs".toList, "https://cdn.example.com".toList, "./syncedFiles".toList⟩
      ⟨true, fun _ _ => [], fun _ => none, fun _ => none, 4096,
        fun _ => false, fun _ => false, fun _ => none⟩ FS.empty).exit = 1 :=
  (main_argument_check _ _ _).2.2 "logs".toList rfl

/-! ## The two paths of a key -/

/-- C10: for a key `pfx/rest` the CDN URL is `cloudFrontDomain/rest`, the
name that line 91 strips for the local file is `/rest`, the URL path with one
leading `/` added, and that is the name joined under `localSyncDir`. -/
theorem paths_of_key_below_prefix (cfg : Config) (pfx rest : GoString) :
    cloudFrontURL cfg pfx (pfx ++ '/' :: rest) = cfg.cloudFrontDomain ++ '/' :: rest ∧
    trimPrefix (pfx ++ '/' :: rest) pfx = '/' :: rest ∧
    localFilePath cfg pfx (pfx ++ '/' :: rest) = join [cfg.localSyncDir, '/' :: rest] := by
  have h : pfx ++ '/' :: rest = (pfx ++ ['/']) ++ rest := by simp
  refine ⟨?_, trimPrefix_append _ _, ?_⟩
  · simp only [cloudFrontURL]
    rw [h, trimPrefix_append]
  · simp only [localFilePath, trimPrefix_append]

end S3Sync
